import Mathlib

/-!
Shallow embedding of the file-tracking and normalized-import core of the
`local_unpaywall` repository, and proofs of the specification claims about it.

The embedding covers:
* `src/helpers/file_tracker.py` — the SQLite-backed `FileTracker`
  (`needs_processing`, `mark_completed`), modelled over an explicit file
  system (association list from path to optional byte content; a `none`
  content models an unreadable file, an absent entry a missing file) and an
  explicit tracking table (association list keyed by path, mirroring the
  `UNIQUE file_path` column).  The SHA-256 digest is modelled as an abstract
  function `hash : List Nat → Nat` over the file's bytes; a concrete
  injective stand-in `demoHash` instantiates it in closed witnesses.
  Timestamps (`datetime.now()`) are passed in explicitly as `now : Nat`.
* `src/db/normalized_helpers.py` — `NormalizedHelper`
  (`_validate_lookup_table_name`, `normalize_location_type`,
  `get_or_create_lookup_id`, `insert_doi_url_record`), modelled over explicit
  lookup tables and an explicit fact table.  Python exceptions are modelled
  with `Except`; the possibility that the SQL `INSERT` into a lookup table
  raises `psycopg2.Error` (for example a unique-constraint violation when a
  concurrent inserter created the value between our SELECT and our INSERT)
  is modelled by the boolean parameter `insertRaises`.
* the batch import engine (`doi_url_importer.py` is not part of the sources;
  only its test suite is) — modelled from the spec, see `runImport` below.
-/

/-! ## File system model (for src/helpers/file_tracker.py) -/

/-- A file system: association list from path to content.  `some c` is a
readable file with byte content `c`; `none` is a file that exists but cannot
be read (`IOError`); an absent path is a missing file (`FileNotFoundError`).
Paths are taken to be already canonical (the code resolves every path with
`Path(...).resolve()` before use, so a single canonical name per file). -/
abbrev FS : Type := List (String × Option (List Nat))

/-- Read a file's bytes; `none` when the path is missing or unreadable.
Embeds `FileTracker._calculate_file_hash`'s two failure modes (the
`not file_path.exists()` check and the `IOError` on read), both of which are
caught identically by every caller. -/
def readBytes : FS → String → Option (List Nat)
  | [], _ => none
  | (q, c) :: rest, p => if q = p then (match c with | some b => some b | none => none)
                         else readBytes rest p

/-- One row of the `processed_files` table (non-key columns). -/
structure FileRecord where
  file_hash : Nat
  file_size : Nat
  completion_date : Nat
  processing_stats : Option String
  created_at : Nat
  updated_at : Nat
deriving DecidableEq, Repr

/-- The `processed_files` table: association list keyed by the
`UNIQUE file_path` column. -/
abbrev TrackDB : Type := List (String × FileRecord)

/-- `SELECT ... FROM processed_files WHERE file_path = ?` (first match). -/
def lookupRecord : TrackDB → String → Option FileRecord
  | [], _ => none
  | (q, r) :: rest, p => if q = p then some r else lookupRecord rest p

/-- Whether a row with the given path exists. -/
def containsKey (db : TrackDB) (p : String) : Bool :=
  (lookupRecord db p).isSome

/-- `INSERT OR REPLACE` keyed on the unique `file_path` column: replace the
existing row for `p`, or append a new one. -/
def upsertRecord (db : TrackDB) (p : String) (r : FileRecord) : TrackDB :=
  if containsKey db p then
    db.map (fun e => if e.1 = p then (p, r) else e)
  else db ++ [(p, r)]

/-- Number of rows whose `file_path` equals `p`. -/
def countRecords (db : TrackDB) (p : String) : Nat :=
  (db.filter (fun e => e.1 = p)).length

/-- `FileTracker.needs_processing`: compute the current fingerprint; on
`FileNotFoundError`/`IOError` log and return `False` ("can't process if file
is inaccessible"); with no stored row return `True`; otherwise return whether
the stored `(file_hash, file_size)` differs from the current pair. -/
def needs_processing (hash : List Nat → Nat) (fs : FS) (db : TrackDB) (p : String) : Bool :=
  match readBytes fs p with
  | none => false
  | some c =>
    match lookupRecord db p with
    | none => true
    | some r => !(r.file_hash == hash c) || !(r.file_size == c.length)

/-- `FileTracker.mark_completed`: recompute the fingerprint (on
`FileNotFoundError`/`IOError` log and return, leaving the table untouched),
then `INSERT OR REPLACE` the row, preserving the original `created_at` via
`COALESCE((SELECT created_at ...), ?)` and setting `completion_date` and
`updated_at` to the current time. -/
def mark_completed (hash : List Nat → Nat) (fs : FS) (db : TrackDB) (p : String)
    (stats : Option String) (now : Nat) : TrackDB :=
  match readBytes fs p with
  | none => db
  | some c =>
    let created : Nat :=
      match lookupRecord db p with
      | some r => r.created_at
      | none => now
    upsertRecord db p
      { file_hash := hash c, file_size := c.length, completion_date := now,
        processing_stats := stats, created_at := created, updated_at := now }

/-- Concrete injective stand-in for the SHA-256 digest, used only to
instantiate closed witnesses (injective on byte lists, i.e. lists of naturals
below 256, just as SHA-256 is collision-free in the idealized model). -/
def demoHash (l : List Nat) : Nat :=
  l.foldl (fun a b => a * 257 + b + 1) 0

/-! ### Association-list lemmas for the tracking table -/

theorem lookupRecord_append_of_none {db : TrackDB} {p : String}
    (h : lookupRecord db p = none) (l : TrackDB) :
    lookupRecord (db ++ l) p = lookupRecord l p := by
  induction db with
  | nil => rfl
  | cons e rest ih =>
    obtain ⟨q, r⟩ := e
    by_cases hq : q = p
    · simp [lookupRecord, hq] at h
    · simp [lookupRecord, hq] at h ⊢
      exact ih h

theorem lookupRecord_map_replace {db : TrackDB} {p : String} (r : FileRecord)
    (h : containsKey db p = true) :
    lookupRecord (db.map (fun e => if e.1 = p then (p, r) else e)) p = some r := by
  induction db with
  | nil => simp [containsKey, lookupRecord] at h
  | cons e rest ih =>
    obtain ⟨q, s⟩ := e
    simp only [List.map_cons]
    by_cases hq : q = p
    · rw [if_pos hq]
      simp [lookupRecord]
    · rw [if_neg hq]
      have h2 : containsKey rest p = true := by
        simp [containsKey, lookupRecord, hq] at h
        simpa [containsKey] using h
      simpa [lookupRecord, hq] using ih h2

theorem lookupRecord_upsert_self (db : TrackDB) (p : String) (r : FileRecord) :
    lookupRecord (upsertRecord db p r) p = some r := by
  unfold upsertRecord
  by_cases h : containsKey db p = true
  · simp [h]
    exact lookupRecord_map_replace r h
  · have hn : lookupRecord db p = none := by
      unfold containsKey at h
      cases hl : lookupRecord db p with
      | none => rfl
      | some s => rw [hl] at h; simp at h
    simp [h]
    rw [lookupRecord_append_of_none hn]
    simp [lookupRecord]

theorem countRecords_of_lookup_none {db : TrackDB} {p : String}
    (h : lookupRecord db p = none) : countRecords db p = 0 := by
  induction db with
  | nil => rfl
  | cons e rest ih =>
    obtain ⟨q, r⟩ := e
    by_cases hq : q = p
    · simp [lookupRecord, hq] at h
    · simp [lookupRecord, hq] at h
      simpa [countRecords, hq] using ih h

theorem countRecords_append_one (db : TrackDB) (p : String) (r : FileRecord) :
    countRecords (db ++ [(p, r)]) p = countRecords db p + 1 := by
  simp [countRecords, List.filter_append]

theorem countRecords_map_replace (db : TrackDB) (p : String) (r : FileRecord) :
    countRecords (db.map (fun e => if e.1 = p then (p, r) else e)) p =
      countRecords db p := by
  induction db with
  | nil => rfl
  | cons e rest ih =>
    obtain ⟨q, s⟩ := e
    by_cases hq : q = p
    · simpa [countRecords, hq] using ih
    · simpa [countRecords, hq] using ih

theorem countRecords_upsert (db : TrackDB) (p : String) (r : FileRecord) :
    countRecords (upsertRecord db p r) p =
      (if containsKey db p then countRecords db p else countRecords db p + 1) := by
  unfold upsertRecord
  by_cases h : containsKey db p = true
  · simp [h, countRecords_map_replace]
  · simp [h, countRecords_append_one]

/-! ### Claims about the file tracker -/

/-- C2 (amended): `needs_processing` returns `false` when the path is
inaccessible (missing or unreadable) — the code logs and conservatively
treats such files as "do not process"; when the file is readable it returns
`true` if no stored record exists, and otherwise returns `true` exactly when
the stored `(contentHash, sizeBytes)` fingerprint differs from the freshly
computed one. -/
theorem c2_needs_processing_characterization (hash : List Nat → Nat) (fs : FS)
    (db : TrackDB) (p : String) :
    (readBytes fs p = none → needs_processing hash fs db p = false)
    ∧ (∀ c, readBytes fs p = some c → lookupRecord db p = none →
        needs_processing hash fs db p = true)
    ∧ (∀ c r, readBytes fs p = some c → lookupRecord db p = some r →
        (needs_processing hash fs db p = true ↔
          (r.file_hash ≠ hash c ∨ r.file_size ≠ c.length))) := by
  refine ⟨?_, ?_, ?_⟩
  · intro h
    unfold needs_processing
    rw [h]
  · intro c h1 h2
    unfold needs_processing
    rw [h1, h2]
  · intro c r h1 h2
    unfold needs_processing
    rw [h1, h2]
    simp

/-- C2 witness: on a concrete readable, untracked file the characterization
yields `needs_processing = true`. -/
theorem c2_needs_processing_characterization_witness :
    needs_processing demoHash [("a.csv", some [1, 2, 3])] [] "a.csv" = true :=
  (c2_needs_processing_characterization demoHash [("a.csv", some [1, 2, 3])] [] "a.csv").2.1
    [1, 2, 3] rfl rfl

/-- C2 counterexample to the claim as stated: for a concrete inaccessible
(missing) path, `needs_processing` returns `false`, not `true`. -/
theorem c2_inaccessible_returns_false_counterexample :
    readBytes ([] : FS) "missing.csv" = none
    ∧ needs_processing demoHash [] [] "missing.csv" = false :=
  ⟨rfl, rfl⟩

/-- C3: for a readable untracked file, `needs_processing` is `true` before
`mark_completed`, `false` immediately after while the bytes are unchanged,
`true` again once the content's fingerprint changes (a byte modification,
under the idealization that the digest of the modified content differs), and
`false` again when content with the original hash and size is restored. -/
theorem c3_tracking_lifecycle (hash : List Nat → Nat) (fs fs' fs'' : FS)
    (db : TrackDB) (p : String) (c c' c'' : List Nat) (stats : Option String)
    (now : Nat)
    (h0 : lookupRecord db p = none)
    (h1 : readBytes fs p = some c)
    (h2 : readBytes fs' p = some c')
    (hmod : hash c' ≠ hash c ∨ c'.length ≠ c.length)
    (h3 : readBytes fs'' p = some c'')
    (hh : hash c'' = hash c) (hs : c''.length = c.length) :
    needs_processing hash fs db p = true
    ∧ needs_processing hash fs (mark_completed hash fs db p stats now) p = false
    ∧ needs_processing hash fs' (mark_completed hash fs db p stats now) p = true
    ∧ needs_processing hash fs'' (mark_completed hash fs db p stats now) p = false := by
  have hdb' : lookupRecord (mark_completed hash fs db p stats now) p =
      some { file_hash := hash c, file_size := c.length, completion_date := now,
             processing_stats := stats, created_at := now, updated_at := now } := by
    unfold mark_completed
    rw [h1]
    simp only [h0]
    exact lookupRecord_upsert_self db p _
  refine ⟨?_, ?_, ?_, ?_⟩
  · unfold needs_processing
    rw [h1, h0]
  · unfold needs_processing
    rw [h1, hdb']
    simp
  · unfold needs_processing
    rw [h2, hdb']
    rcases hmod with hx | hx
    · simp [Ne.symm hx]
    · simp [Ne.symm hx]
  · unfold needs_processing
    rw [h3, hdb']
    simp [hh, hs]

/-- C3 witness: the lifecycle on a concrete file, with content `[1, 2]`
modified to `[1, 3]` and then restored. -/
theorem c3_tracking_lifecycle_witness :
    needs_processing demoHash [("f.csv", some [1, 2])] [] "f.csv" = true
    ∧ needs_processing demoHash [("f.csv", some [1, 2])]
        (mark_completed demoHash [("f.csv", some [1, 2])] [] "f.csv" none 5) "f.csv" = false
    ∧ needs_processing demoHash [("f.csv", some [1, 3])]
        (mark_completed demoHash [("f.csv", some [1, 2])] [] "f.csv" none 5) "f.csv" = true
    ∧ needs_processing demoHash [("f.csv", some [1, 2])]
        (mark_completed demoHash [("f.csv", some [1, 2])] [] "f.csv" none 5) "f.csv" = false :=
  c3_tracking_lifecycle demoHash [("f.csv", some [1, 2])] [("f.csv", some [1, 3])]
    [("f.csv", some [1, 2])] [] "f.csv" [1, 2] [1, 3] [1, 2] none 5
    rfl rfl rfl (Or.inl (by decide)) rfl (by decide) (by decide)

/-- C4: calling `mark_completed` a second time on an unchanged file is
idempotent — the table still holds exactly one row for the path, its
`created_at` stays the value written by the first call, and only
`completion_date`, `updated_at` and the stats payload are refreshed. -/
theorem c4_mark_completed_idempotent (hash : List Nat → Nat) (fs : FS)
    (db : TrackDB) (p : String) (c : List Nat) (stats1 stats2 : Option String)
    (t1 t2 : Nat)
    (h1 : readBytes fs p = some c) (h0 : lookupRecord db p = none) :
    countRecords (mark_completed hash fs
        (mark_completed hash fs db p stats1 t1) p stats2 t2) p = 1
    ∧ lookupRecord (mark_completed hash fs
        (mark_completed hash fs db p stats1 t1) p stats2 t2) p =
      some { file_hash := hash c, file_size := c.length, completion_date := t2,
             processing_stats := stats2, created_at := t1, updated_at := t2 } := by
  have hd1 : mark_completed hash fs db p stats1 t1 =
      upsertRecord db p
        { file_hash := hash c, file_size := c.length, completion_date := t1,
          processing_stats := stats1, created_at := t1, updated_at := t1 } := by
    unfold mark_completed
    rw [h1]
    simp only [h0]
  have hl1 : lookupRecord (mark_completed hash fs db p stats1 t1) p =
      some { file_hash := hash c, file_size := c.length, completion_date := t1,
             processing_stats := stats1, created_at := t1, updated_at := t1 } := by
    rw [hd1]
    exact lookupRecord_upsert_self db p _
  have mark_eq : ∀ (db1 : TrackDB) (r0 : FileRecord), lookupRecord db1 p = some r0 →
      mark_completed hash fs db1 p stats2 t2 =
        upsertRecord db1 p
          { file_hash := hash c, file_size := c.length, completion_date := t2,
            processing_stats := stats2, created_at := r0.created_at, updated_at := t2 } := by
    intro db1 r0 hr
    unfold mark_completed
    rw [h1]
    simp only [hr]
  have hd2 : mark_completed hash fs (mark_completed hash fs db p stats1 t1) p stats2 t2 =
      upsertRecord (mark_completed hash fs db p stats1 t1) p
        { file_hash := hash c, file_size := c.length, completion_date := t2,
          processing_stats := stats2, created_at := t1, updated_at := t2 } :=
    mark_eq _ _ hl1
  constructor
  · rw [hd2, countRecords_upsert]
    have hck2 : containsKey (mark_completed hash fs db p stats1 t1) p = true := by
      unfold containsKey
      rw [hl1]
      rfl
    rw [if_pos hck2]
    rw [hd1, countRecords_upsert]
    have hck1 : containsKey db p = false := by
      unfold containsKey
      rw [h0]
      rfl
    rw [hck1]
    simp [countRecords_of_lookup_none h0]
  · rw [hd2]
    exact lookupRecord_upsert_self _ p _

/-- C4 witness: marking a concrete unchanged file completed twice leaves one
record with the first call's creation timestamp. -/
theorem c4_mark_completed_idempotent_witness :
    countRecords (mark_completed demoHash [("f.csv", some [7])]
        (mark_completed demoHash [("f.csv", some [7])] [] "f.csv" (some "s1") 3)
        "f.csv" (some "s2") 8) "f.csv" = 1
    ∧ lookupRecord (mark_completed demoHash [("f.csv", some [7])]
        (mark_completed demoHash [("f.csv", some [7])] [] "f.csv" (some "s1") 3)
        "f.csv" (some "s2") 8) "f.csv" =
      some { file_hash := demoHash [7], file_size := 1, completion_date := 8,
             processing_stats := some "s2", created_at := 3, updated_at := 8 } :=
  c4_mark_completed_idempotent demoHash [("f.csv", some [7])] [] "f.csv" [7]
    (some "s1") (some "s2") 3 8 rfl rfl

/-- C10: when the backing file is missing or unreadable at call time,
`mark_completed` returns without raising and leaves the tracking table
exactly unchanged. -/
theorem c10_mark_completed_inaccessible_noop (hash : List Nat → Nat) (fs : FS)
    (db : TrackDB) (p : String) (stats : Option String) (now : Nat)
    (h : readBytes fs p = none) :
    mark_completed hash fs db p stats now = db := by
  unfold mark_completed
  rw [h]

/-- C10 witness: marking a missing file on a concrete non-empty tracking
table leaves the table unchanged. -/
theorem c10_mark_completed_inaccessible_noop_witness :
    mark_completed demoHash [("other.csv", some [1])]
      [("g.csv", { file_hash := 1, file_size := 2, completion_date := 3,
                   processing_stats := none, created_at := 4, updated_at := 5 })]
      "g.csv" (some "s") 9 =
    [("g.csv", { file_hash := 1, file_size := 2, completion_date := 3,
                 processing_stats := none, created_at := 4, updated_at := 5 })] :=
  c10_mark_completed_inaccessible_noop demoHash [("other.csv", some [1])] _ "g.csv"
    (some "s") 9 rfl

/-! ## Lookup resolver model (for src/db/normalized_helpers.py) -/

/-- `NormalizedHelper.VALID_LOOKUP_TABLES`: the whitelist of lookup table
names. -/
def VALID_LOOKUP_TABLES : List String :=
  ["license", "oa_status", "host_type", "work_type"]

/-- One lookup table (`unpaywall.license` etc.): its `(id, value)` rows and
the next id its `SERIAL` sequence will hand out. -/
structure LookupTable where
  rows : List (Nat × String)
  nextId : Nat
deriving DecidableEq, Repr

/-- The four lookup tables, addressed by name. -/
abbrev LookupDB : Type := List (String × LookupTable)

/-- Fetch a lookup table by name; an absent entry is the empty table with its
sequence at 1 (tables exist by schema). -/
def getTable : LookupDB → String → LookupTable
  | [], _ => { rows := [], nextId := 1 }
  | (q, tbl) :: rest, t => if q = t then tbl else getTable rest t

/-- Store a lookup table back under its name. -/
def setTable (db : LookupDB) (t : String) (tbl : LookupTable) : LookupDB :=
  if db.any (fun e => e.1 = t) then
    db.map (fun e => if e.1 = t then (t, tbl) else e)
  else db ++ [(t, tbl)]

/-- Python `str.lower()` over the character list (ASCII case folding, which
is what the four location-type spellings need). -/
def pyLower (s : String) : String :=
  ⟨s.data.map Char.toLower⟩

/-- Python `str.strip()`: drop leading and trailing whitespace. -/
def pyStrip (s : String) : String :=
  ⟨((s.data.dropWhile Char.isWhitespace).reverse.dropWhile Char.isWhitespace).reverse⟩

/-- The helper's `_lookup_cache` dictionary restricted to the forward
entries `"{table}:{value}" -> id` that `get_or_create_lookup_id` reads and
writes (the reverse entries `"{table}_id:{id}" -> value` written by
`get_lookup_value` use a disjoint key shape and no claim touches them). -/
abbrev LookupCache : Type := List (String × Nat)

/-- Python dictionary read `cache[key]`. -/
def cacheLookup : LookupCache → String → Option Nat
  | [], _ => none
  | (q, i) :: rest, k => if q = k then some i else cacheLookup rest k

/-- Python dictionary write `cache[key] = id` (replace or add). -/
def cacheInsert (cache : LookupCache) (k : String) (i : Nat) : LookupCache :=
  if cache.any (fun e => e.1 = k) then
    cache.map (fun e => if e.1 = k then (k, i) else e)
  else cache ++ [(k, i)]

/-- The mutable state of a `NormalizedHelper`: its in-process cache and the
lookup tables behind the database connection. -/
structure HelperState where
  cache : LookupCache
  db : LookupDB
deriving DecidableEq, Repr

/-- `NormalizedHelper.get_or_create_lookup_id`, with Python exceptions as
`Except`.  In source order: empty/None values return `None` before anything
else; `_validate_lookup_table_name` then raises `ValueError` for a name
outside the whitelist; the stripped value is looked up in the cache, then
`SELECT`ed, then `INSERT ... RETURNING id`-ed.  `insertRaises` models the
`INSERT` raising `psycopg2.Error` — e.g. the unique-constraint violation when
a concurrent inserter created the value between our SELECT and our INSERT —
in which case the `except` branch rolls back, logs, and returns `None`. -/
def get_or_create_lookup_id :
    HelperState → String → Option String → Bool →
    Except String (Option Nat × HelperState)
  | st, _, none, _ => .ok (none, st)
  | st, tableName, some raw, insertRaises =>
    if pyStrip raw = "" then .ok (none, st)
    else if tableName ∈ VALID_LOOKUP_TABLES then
      let v := pyStrip raw
      let cacheKey := tableName ++ ":" ++ v
      match cacheLookup st.cache cacheKey with
      | some cachedId => .ok (some cachedId, st)
      | none =>
        let tbl := getTable st.db tableName
        match tbl.rows.find? (fun row => row.2 == v) with
        | some row =>
          .ok (some row.1, { st with cache := cacheInsert st.cache cacheKey row.1 })
        | none =>
          if insertRaises then .ok (none, st)
          else
            let newId := tbl.nextId
            .ok (some newId,
              { cache := cacheInsert st.cache cacheKey newId,
                db := setTable st.db tableName
                  { rows := tbl.rows ++ [(newId, v)], nextId := newId + 1 } })
    else .error ("Invalid lookup table name: " ++ tableName)

/-- `NormalizedHelper.normalize_location_type`: empty input defaults to
`'p'`; otherwise the lowercased, stripped text is matched against the
recognized spellings, defaulting to `'p'` for unknown values. -/
def normalize_location_type (location_type : String) : Char :=
  if location_type = "" then 'p'
  else
    let location_lower := pyStrip (pyLower location_type)
    if location_lower = "primary" ∨ location_lower = "p" then 'p'
    else if location_lower = "alternate" ∨ location_lower = "alternative" ∨
            location_lower = "secondary" ∨ location_lower = "a" then 'a'
    else if location_lower = "best_oa" ∨ location_lower = "best" ∨
            location_lower = "b" then 'b'
    else 'p'

/-- Number of rows of a lookup table carrying a given value. -/
def countVal (rows : List (Nat × String)) (v : String) : Nat :=
  (rows.filter (fun row => row.2 == v)).length

/-! ### Lemmas about the lookup stores -/

theorem cacheLookup_cacheInsert_self (cache : LookupCache) (k : String) (i : Nat) :
    cacheLookup (cacheInsert cache k i) k = some i := by
  unfold cacheInsert
  by_cases h : cache.any (fun e => e.1 = k) = true
  · rw [if_pos h]
    induction cache with
    | nil => simp at h
    | cons e rest ih =>
      obtain ⟨q, j⟩ := e
      simp only [List.map_cons]
      by_cases hq : q = k
      · rw [if_pos hq]
        simp [cacheLookup]
      · rw [if_neg hq]
        have h2 : rest.any (fun e => e.1 = k) = true := by
          simp [hq] at h
          simpa using h
        simpa [cacheLookup, hq] using ih h2
  · rw [if_neg h]
    have hn : cacheLookup cache k = none := by
      induction cache with
      | nil => rfl
      | cons e rest ih =>
        obtain ⟨q, j⟩ := e
        simp only [List.any_cons, Bool.or_eq_true] at h
        push_neg at h
        simp only [cacheLookup]
        rw [if_neg (by simpa using h.1)]
        exact ih h.2
    induction cache with
    | nil => simp [cacheLookup]
    | cons e rest ih =>
      obtain ⟨q, j⟩ := e
      simp only [cacheLookup] at hn ⊢
      by_cases hq : q = k
      · rw [if_pos hq] at hn
        simp at hn
      · rw [if_neg hq] at hn ⊢
        simp only [List.any_cons, Bool.or_eq_true] at h
        push_neg at h
        exact ih h.2 hn

theorem getTable_setTable_self (db : LookupDB) (t : String) (tbl : LookupTable) :
    getTable (setTable db t tbl) t = tbl := by
  unfold setTable
  by_cases h : db.any (fun e => e.1 = t) = true
  · rw [if_pos h]
    induction db with
    | nil => simp at h
    | cons e rest ih =>
      obtain ⟨q, u⟩ := e
      simp only [List.map_cons]
      by_cases hq : q = t
      · rw [if_pos hq]
        simp [getTable]
      · rw [if_neg hq]
        have h2 : rest.any (fun e => e.1 = t) = true := by
          simp [hq] at h
          simpa using h
        simpa [getTable, hq] using ih h2
  · rw [if_neg h]
    induction db with
    | nil => simp [getTable]
    | cons e rest ih =>
      obtain ⟨q, u⟩ := e
      simp only [List.any_cons, Bool.or_eq_true] at h
      push_neg at h
      simp only [List.cons_append, getTable]
      rw [if_neg (by simpa using h.1)]
      exact ih (by simpa using h.2)

theorem countVal_of_find?_none {rows : List (Nat × String)} {v : String}
    (h : rows.find? (fun row => row.2 == v) = none) : countVal rows v = 0 := by
  rw [List.find?_eq_none] at h
  unfold countVal
  rw [List.filter_eq_nil_iff.mpr]
  · rfl
  · intro row hrow
    exact h row hrow

theorem countVal_pos_of_mem {rows : List (Nat × String)} {i : Nat} {v : String}
    (h : (i, v) ∈ rows) : 1 ≤ countVal rows v := by
  unfold countVal
  have : (i, v) ∈ rows.filter (fun row => row.2 == v) := by
    rw [List.mem_filter]
    exact ⟨h, by simp⟩
  calc 1 ≤ _ := List.length_pos.mpr (List.ne_nil_of_mem this)

theorem countVal_append_one (rows : List (Nat × String)) (i : Nat) (v : String) :
    countVal (rows ++ [(i, v)]) v = countVal rows v + 1 := by
  simp [countVal, List.filter_append]


/-! ### Claims about the lookup resolver -/

/-- C5 (amended): when the `INSERT` of a new lookup entry fails with a
`psycopg2.Error` — in particular the unique-constraint violation raised when
a concurrent inserter created the entry first — `get_or_create_lookup_id`
rolls back, logs, and returns `None` with the helper state unchanged; it does
not re-read the lookup table. -/
theorem c5_insert_conflict_returns_none (st : HelperState) (t raw : String)
    (hv : t ∈ VALID_LOOKUP_TABLES) (hne : pyStrip raw ≠ "")
    (hc : cacheLookup st.cache (t ++ ":" ++ pyStrip raw) = none)
    (hf : (getTable st.db t).rows.find? (fun row => row.2 == pyStrip raw) = none) :
    get_or_create_lookup_id st t (some raw) true = .ok (none, st) := by
  simp only [get_or_create_lookup_id]
  rw [if_neg hne, if_pos hv]
  simp [hc, hf]

/-- C5 witness: a concrete fresh helper whose insert of `cc-by` into
`license` hits the constraint violation gets `None` back. -/
theorem c5_insert_conflict_returns_none_witness :
    get_or_create_lookup_id ⟨[], []⟩ "license" (some "cc-by") true =
      .ok (none, (⟨[], []⟩ : HelperState)) :=
  c5_insert_conflict_returns_none ⟨[], []⟩ "license" "cc-by"
    (by decide) (by decide) rfl rfl

/-- C5 counterexample to the claim as stated: in the concurrent-inserter
race, the code returns `null` (`None`) rather than re-reading and returning
the now-existing id. -/
theorem c5_no_reread_counterexample :
    get_or_create_lookup_id ⟨[], []⟩ "oa_status" (some "gold") true =
      .ok (none, (⟨[], []⟩ : HelperState)) := by
  rfl

/-- C6: resolving the same non-empty value twice in the same valid category
returns the same surrogate id both times, and afterwards the backing lookup
table holds exactly one row whose value is the stripped input.  The starting
state satisfies the storage invariants: the unique constraint on `value`
(at most one row per value) and cache entries reflecting table rows. -/
theorem c6_resolve_twice_same_id (st : HelperState) (t raw : String)
    (hv : t ∈ VALID_LOOKUP_TABLES) (hne : pyStrip raw ≠ "")
    (huniq : countVal (getTable st.db t).rows (pyStrip raw) ≤ 1)
    (hcc : ∀ i, cacheLookup st.cache (t ++ ":" ++ pyStrip raw) = some i →
        (i, pyStrip raw) ∈ (getTable st.db t).rows) :
    ∃ i st1 st2,
      get_or_create_lookup_id st t (some raw) false = .ok (some i, st1)
      ∧ get_or_create_lookup_id st1 t (some raw) false = .ok (some i, st2)
      ∧ countVal (getTable st2.db t).rows (pyStrip raw) = 1 := by
  cases hcache : cacheLookup st.cache (t ++ ":" ++ pyStrip raw) with
  | some i =>
    refine ⟨i, st, st, ?_, ?_, ?_⟩
    · simp only [get_or_create_lookup_id]
      rw [if_neg hne, if_pos hv]
      simp only [hcache]
    · simp only [get_or_create_lookup_id]
      rw [if_neg hne, if_pos hv]
      simp only [hcache]
    · exact le_antisymm huniq (countVal_pos_of_mem (hcc i hcache))
  | none =>
    cases hfind : (getTable st.db t).rows.find? (fun row => row.2 == pyStrip raw) with
    | some row =>
      obtain ⟨i, v'⟩ := row
      have hveq : v' = pyStrip raw := by
        have := List.find?_some hfind
        simpa using this
      have hmem : (i, pyStrip raw) ∈ (getTable st.db t).rows := by
        rw [← hveq]
        exact List.mem_of_find?_eq_some hfind
      refine ⟨i, { st with cache := cacheInsert st.cache (t ++ ":" ++ pyStrip raw) i },
        { st with cache := cacheInsert st.cache (t ++ ":" ++ pyStrip raw) i },
        ?_, ?_, ?_⟩
      · simp only [get_or_create_lookup_id]
        rw [if_neg hne, if_pos hv]
        simp only [hcache, hfind]
      · simp only [get_or_create_lookup_id]
        rw [if_neg hne, if_pos hv]
        simp only [cacheLookup_cacheInsert_self]
      · exact le_antisymm huniq (countVal_pos_of_mem hmem)
    | none =>
      have hcount0 : countVal (getTable st.db t).rows (pyStrip raw) = 0 :=
        countVal_of_find?_none hfind
      refine ⟨(getTable st.db t).nextId,
        { cache := cacheInsert st.cache (t ++ ":" ++ pyStrip raw) (getTable st.db t).nextId,
          db := setTable st.db t
            { rows := (getTable st.db t).rows ++ [((getTable st.db t).nextId, pyStrip raw)],
              nextId := (getTable st.db t).nextId + 1 } },
        { cache := cacheInsert st.cache (t ++ ":" ++ pyStrip raw) (getTable st.db t).nextId,
          db := setTable st.db t
            { rows := (getTable st.db t).rows ++ [((getTable st.db t).nextId, pyStrip raw)],
              nextId := (getTable st.db t).nextId + 1 } },
        ?_, ?_, ?_⟩
      · simp only [get_or_create_lookup_id]
        rw [if_neg hne, if_pos hv]
        simp [hcache, hfind]
      · simp only [get_or_create_lookup_id]
        rw [if_neg hne, if_pos hv]
        simp [cacheLookup_cacheInsert_self]
      · simp only [getTable_setTable_self]
        rw [countVal_append_one, hcount0]

/-- C6 witness: resolving `cc-by` twice in `license` from a fresh helper
yields the same id twice and one table row. -/
theorem c6_resolve_twice_same_id_witness :
    ∃ i st1 st2,
      get_or_create_lookup_id ⟨[], []⟩ "license" (some "cc-by") false = .ok (some i, st1)
      ∧ get_or_create_lookup_id st1 "license" (some "cc-by") false = .ok (some i, st2)
      ∧ countVal (getTable st2.db "license").rows (pyStrip "cc-by") = 1 :=
  c6_resolve_twice_same_id ⟨[], []⟩ "license" "cc-by" (by decide) (by decide)
    (by decide) (fun i h => by simp [cacheLookup] at h)

/-- C7 (amended): for a category name outside the whitelist,
`get_or_create_lookup_id` raises `ValueError` without touching cache or
tables — but only once the value is non-empty, because the empty/None
short-circuit precedes validation and returns `None` with no storage
interaction and no error. -/
theorem c7_invalid_category (st : HelperState) (t : String) (b : Bool)
    (hv : t ∉ VALID_LOOKUP_TABLES) :
    get_or_create_lookup_id st t none b = .ok (none, st)
    ∧ ∀ raw : String,
      (pyStrip raw = "" → get_or_create_lookup_id st t (some raw) b = .ok (none, st))
      ∧ (pyStrip raw ≠ "" → get_or_create_lookup_id st t (some raw) b =
          .error ("Invalid lookup table name: " ++ t)) := by
  refine ⟨rfl, ?_⟩
  intro raw
  constructor
  · intro h
    simp only [get_or_create_lookup_id]
    rw [if_pos h]
  · intro h
    simp only [get_or_create_lookup_id]
    rw [if_neg h, if_neg hv]

/-- C7 witness: a concrete invalid category with a non-empty value raises. -/
theorem c7_invalid_category_witness :
    get_or_create_lookup_id ⟨[], []⟩ "bogus" (some "gold") false =
      .error ("Invalid lookup table name: " ++ "bogus") :=
  ((c7_invalid_category ⟨[], []⟩ "bogus" false (by decide)).2 "gold").2 (by decide)

/-- C7 counterexample to the claim as stated: an invalid category paired with
a `None` value does not fail — the empty-value short-circuit returns `None`
before `_validate_lookup_table_name` runs. -/
theorem c7_empty_value_skips_validation_counterexample :
    "bogus" ∉ VALID_LOOKUP_TABLES
    ∧ get_or_create_lookup_id ⟨[], []⟩ "bogus" none false =
        .ok (none, (⟨[], []⟩ : HelperState)) :=
  ⟨by decide, rfl⟩

/-- C9 (amended): `normalize_location_type` maps (after lowercasing and
stripping) `primary` to `'p'`, `alternate`/`alternative`/`secondary` to
`'a'`, `best_oa`/`best` to `'b'`, the single-character codes `p`/`a`/`b` to
themselves, and every other input — including the empty string — to `'p'`. -/
theorem c9_normalize_location_type_table :
    normalize_location_type "primary" = 'p'
    ∧ normalize_location_type "alternate" = 'a'
    ∧ normalize_location_type "secondary" = 'a'
    ∧ normalize_location_type "alternative" = 'a'
    ∧ normalize_location_type "best_oa" = 'b'
    ∧ normalize_location_type "best" = 'b'
    ∧ normalize_location_type "p" = 'p'
    ∧ normalize_location_type "a" = 'a'
    ∧ normalize_location_type "b" = 'b'
    ∧ normalize_location_type "" = 'p'
    ∧ ∀ s : String,
        pyStrip (pyLower s) ∉ (["primary", "p", "alternate", "alternative",
          "secondary", "a", "best_oa", "best", "b"] : List String) →
        normalize_location_type s = 'p' := by
  refine ⟨by decide, by decide, by decide, by decide, by decide, by decide,
    by decide, by decide, by decide, by decide, ?_⟩
  intro s h
  simp only [List.mem_cons, List.not_mem_nil, or_false, not_or] at h
  obtain ⟨h1, h2, h3, h4, h5, h6, h7, h8, h9⟩ := h
  unfold normalize_location_type
  by_cases hs : s = ""
  · rw [if_pos hs]
  · rw [if_neg hs]
    simp only
    rw [if_neg (by tauto), if_neg (by tauto), if_neg (by tauto)]

/-- C9 witness: an unrecognized input maps to `'p'` by the default clause. -/
theorem c9_normalize_location_type_table_witness :
    normalize_location_type "somewhere" = 'p' :=
  c9_normalize_location_type_table.2.2.2.2.2.2.2.2.2.2 "somewhere" (by decide)

/-- C9 counterexample to the claim as stated: the input `"a"` is not among
the spellings the claim lists, yet it maps to `'a'`, not `'p'`. -/
theorem c9_code_a_counterexample :
    normalize_location_type "a" = 'a' ∧ normalize_location_type "a" ≠ 'p' := by
  constructor <;> decide

/-! ## Fact table model (unpaywall.doi_urls and insert_doi_url_record) -/

/-- One row of `unpaywall.doi_urls` as touched by `insert_doi_url_record`:
the key pair, every column the `ON CONFLICT (doi, url) DO UPDATE` clause
overwrites, and the refreshed `updated_at` timestamp. -/
structure StoredFact where
  doi : Option String
  url : Option String
  pdf_url : Option String
  openalex_id : Option Nat
  title : Option String
  publication_year : Option Int
  location_type : Char
  version : Option String
  license_id : Option Nat
  host_type_id : Option Nat
  oa_status_id : Option Nat
  is_oa : Bool
  work_type_id : Option Nat
  is_retracted : Bool
  url_quality_score : Nat
  updated_at : Nat
deriving DecidableEq, Repr

/-- The fact table. -/
abbrev FactTable : Type := List StoredFact

/-- The `record_data` dictionary handed to `insert_doi_url_record`: every
field optional, `data.get(...)` defaults applied inside the function. -/
structure RecordData where
  doi : Option String := none
  url : Option String := none
  pdf_url : Option String := none
  openalex_id : Option Nat := none
  title : Option String := none
  publication_year : Option Int := none
  location_type : Option String := none
  version : Option String := none
  license : Option String := none
  host_type : Option String := none
  oa_status : Option String := none
  is_oa : Option Bool := none
  work_type : Option String := none
  is_retracted : Option Bool := none
  url_quality_score : Option Nat := none
deriving DecidableEq, Repr

/-- `INSERT ... ON CONFLICT (doi, url) DO UPDATE SET ...`: if a row with the
same `(doi, url)` key exists, every non-key field is overwritten with the
incoming row's values (which carry `updated_at = CURRENT_TIMESTAMP`);
otherwise the row is appended. -/
def upsertFact (tbl : FactTable) (f : StoredFact) : FactTable :=
  if tbl.any (fun x => x.doi == f.doi && x.url == f.url) then
    tbl.map (fun x => if x.doi == f.doi && x.url == f.url then f else x)
  else tbl ++ [f]

/-- `SELECT * FROM doi_urls WHERE doi = ? AND url = ?` (first match). -/
def findFact (tbl : FactTable) (d u : Option String) : Option StoredFact :=
  tbl.find? (fun x => x.doi == d && x.url == u)

/-- `NormalizedHelper.insert_doi_url_record`: resolve the four categorical
fields through `get_or_create_lookup_id` (mutating the helper's cache and
the lookup tables), normalize `location_type` (default `'primary'`), then
upsert the row keyed by `(doi, url)`.  Returns the success flag together
with the helper state and fact table after the call; the unreachable
`ValueError` branches (the four table names are literals from the whitelist)
map to the `except` branch returning `False`. -/
def insert_doi_url_record (st : HelperState) (tbl : FactTable)
    (data : RecordData) (now : Nat) : Bool × HelperState × FactTable :=
  match get_or_create_lookup_id st "license" data.license false with
  | .error _ => (false, st, tbl)
  | .ok (license_id, st1) =>
    match get_or_create_lookup_id st1 "oa_status" data.oa_status false with
    | .error _ => (false, st1, tbl)
    | .ok (oa_status_id, st2) =>
      match get_or_create_lookup_id st2 "host_type" data.host_type false with
      | .error _ => (false, st2, tbl)
      | .ok (host_type_id, st3) =>
        match get_or_create_lookup_id st3 "work_type" data.work_type false with
        | .error _ => (false, st3, tbl)
        | .ok (work_type_id, st4) =>
          let location_type := normalize_location_type (data.location_type.getD "primary")
          let row : StoredFact :=
            { doi := data.doi, url := data.url, pdf_url := data.pdf_url,
              openalex_id := data.openalex_id, title := data.title,
              publication_year := data.publication_year,
              location_type := location_type, version := data.version,
              license_id := license_id, host_type_id := host_type_id,
              oa_status_id := oa_status_id, is_oa := data.is_oa.getD false,
              work_type_id := work_type_id,
              is_retracted := data.is_retracted.getD false,
              url_quality_score := data.url_quality_score.getD 50,
              updated_at := now }
          (true, st4, upsertFact tbl row)

/-! ### Shape lemmas for insert_doi_url_record -/

theorem get_or_create_valid_ok (st : HelperState) (t : String) (v : Option String)
    (hv : t ∈ VALID_LOOKUP_TABLES) :
    ∃ r, get_or_create_lookup_id st t v false = .ok r := by
  cases v with
  | none => exact ⟨(none, st), rfl⟩
  | some raw =>
    simp only [get_or_create_lookup_id]
    by_cases hne : pyStrip raw = ""
    · rw [if_pos hne]
      exact ⟨(none, st), rfl⟩
    · rw [if_neg hne, if_pos hv]
      cases hcache : cacheLookup st.cache (t ++ ":" ++ pyStrip raw) with
      | some i =>
        refine ⟨(some i, st), ?_⟩
        simp [hcache]
      | none =>
        cases hfind : (getTable st.db t).rows.find? (fun row => row.2 == pyStrip raw) with
        | some row =>
          refine ⟨(some row.1,
            { st with cache := cacheInsert st.cache (t ++ ":" ++ pyStrip raw) row.1 }), ?_⟩
          simp [hcache, hfind]
        | none =>
          refine ⟨(some (getTable st.db t).nextId,
            { cache := cacheInsert st.cache (t ++ ":" ++ pyStrip raw) (getTable st.db t).nextId,
              db := setTable st.db t
                { rows := (getTable st.db t).rows ++ [((getTable st.db t).nextId, pyStrip raw)],
                  nextId := (getTable st.db t).nextId + 1 } }), ?_⟩
          simp [hcache, hfind]

theorem insert_doi_url_record_shape (st : HelperState) (tbl : FactTable)
    (data : RecordData) (now : Nat) :
    ∃ st4 row, insert_doi_url_record st tbl data now = (true, st4, upsertFact tbl row)
      ∧ row.doi = data.doi ∧ row.url = data.url ∧ row.title = data.title
      ∧ row.updated_at = now := by
  obtain ⟨⟨lid, st1⟩, h1⟩ := get_or_create_valid_ok st "license" data.license (by decide)
  obtain ⟨⟨oid, st2⟩, h2⟩ := get_or_create_valid_ok st1 "oa_status" data.oa_status (by decide)
  obtain ⟨⟨hid, st3⟩, h3⟩ := get_or_create_valid_ok st2 "host_type" data.host_type (by decide)
  obtain ⟨⟨wid, st4⟩, h4⟩ := get_or_create_valid_ok st3 "work_type" data.work_type (by decide)
  refine ⟨st4,
    { doi := data.doi, url := data.url, pdf_url := data.pdf_url,
      openalex_id := data.openalex_id, title := data.title,
      publication_year := data.publication_year,
      location_type := normalize_location_type (data.location_type.getD "primary"),
      version := data.version, license_id := lid, host_type_id := hid,
      oa_status_id := oid, is_oa := data.is_oa.getD false, work_type_id := wid,
      is_retracted := data.is_retracted.getD false,
      url_quality_score := data.url_quality_score.getD 50,
      updated_at := now }, ?_, rfl, rfl, rfl, rfl⟩
  unfold insert_doi_url_record
  simp only [h1, h2, h3, h4]

/-! ### Claim C8: (doi, url)-keyed last-writer-wins upsert -/

/-- C8: `(doi, url)` uniquely identifies a fact row and re-insertion with an
existing key is a full-field overwrite refreshing the update timestamp: after
importing `r1`, `r2`, `r3` into an empty table where `r3` duplicates `r1`'s
key, the table holds exactly two rows, the shared-key row carries the last
occurrence's title and timestamp, and `r2`'s row is untouched. -/
theorem c8_last_writer_wins (st0 : HelperState) (d1 d2 d3 : RecordData)
    (n1 n2 n3 : Nat)
    (hk31 : d3.doi = d1.doi ∧ d3.url = d1.url)
    (hk21 : ¬(d2.doi = d1.doi ∧ d2.url = d1.url)) :
    ∃ s1 s2 s3 t1 t2 t3,
      insert_doi_url_record st0 [] d1 n1 = (true, s1, t1)
      ∧ insert_doi_url_record s1 t1 d2 n2 = (true, s2, t2)
      ∧ insert_doi_url_record s2 t2 d3 n3 = (true, s3, t3)
      ∧ t3.length = 2
      ∧ (∃ r, findFact t3 d1.doi d1.url = some r
          ∧ r.title = d3.title ∧ r.updated_at = n3)
      ∧ (∃ r, findFact t3 d2.doi d2.url = some r
          ∧ r.title = d2.title ∧ r.updated_at = n2) := by
  obtain ⟨s1, row1, hins1, hd1, hu1, hti1, hup1⟩ :=
    insert_doi_url_record_shape st0 [] d1 n1
  have ht1 : upsertFact [] row1 = [row1] := by
    simp [upsertFact]
  obtain ⟨s2, row2, hins2, hd2, hu2, hti2, hup2⟩ :=
    insert_doi_url_record_shape s1 [row1] d2 n2
  have hkey21 : (row1.doi == row2.doi && row1.url == row2.url) = false := by
    rw [hd1, hu1, hd2, hu2]
    by_cases hx : d1.doi = d2.doi
    · have hy : d1.url ≠ d2.url := fun hy => hk21 ⟨hx.symm, hy.symm⟩
      simp [hy]
    · simp [hx]
  have ht2 : upsertFact [row1] row2 = [row1, row2] := by
    simp [upsertFact, hkey21]
  obtain ⟨s3, row3, hins3, hd3, hu3, hti3, hup3⟩ :=
    insert_doi_url_record_shape s2 [row1, row2] d3 n3
  have hkey13 : (row1.doi == row3.doi && row1.url == row3.url) = true := by
    rw [hd1, hu1, hd3, hu3, hk31.1, hk31.2]
    simp
  have hkey23 : (row2.doi == row3.doi && row2.url == row3.url) = false := by
    rw [hd2, hu2, hd3, hu3, hk31.1, hk31.2]
    by_cases hx : d2.doi = d1.doi
    · have hy : d2.url ≠ d1.url := fun hy => hk21 ⟨hx, hy⟩
      simp [hy]
    · simp [hx]
  have ht3 : upsertFact [row1, row2] row3 = [row3, row2] := by
    unfold upsertFact
    rw [if_pos (by simp [List.any_cons, hkey13])]
    simp only [List.map_cons, List.map_nil, hkey13, hkey23, if_true, if_false,
      Bool.false_eq_true, ite_false, ite_true]
  refine ⟨s1, s2, s3, [row1], [row1, row2], [row3, row2],
    by rw [hins1, ht1], by rw [hins2, ht2], by rw [hins3, ht3], by simp, ?_, ?_⟩
  · refine ⟨row3, ?_, hti3, hup3⟩
    unfold findFact
    rw [List.find?_cons_of_pos]
    rw [hd3, hu3, hk31.1, hk31.2]
    simp
  · refine ⟨row2, ?_, hti2, hup2⟩
    unfold findFact
    rw [List.find?_cons_of_neg, List.find?_cons_of_pos]
    · rw [hd2, hu2]
      simp
    · rw [hd3, hu3, hk31.1, hk31.2]
      intro hcon
      simp only [Bool.and_eq_true, beq_iff_eq] at hcon
      exact hk21 ⟨hcon.1.symm, hcon.2.symm⟩

/-- C8 witness: the spec's three-row scenario with concrete DOIs and URLs. -/
theorem c8_last_writer_wins_witness :
    ∃ s1 s2 s3 t1 t2 t3,
      insert_doi_url_record ⟨[], []⟩ []
        { doi := some "10.1/a", url := some "u1", title := some "T1" } 1 = (true, s1, t1)
      ∧ insert_doi_url_record s1 t1
        { doi := some "10.1/b", url := some "u2", title := some "T2" } 2 = (true, s2, t2)
      ∧ insert_doi_url_record s2 t2
        { doi := some "10.1/a", url := some "u1", title := some "T3" } 3 = (true, s3, t3)
      ∧ t3.length = 2
      ∧ (∃ r, findFact t3 (some "10.1/a") (some "u1") = some r
          ∧ r.title = some "T3" ∧ r.updated_at = 3)
      ∧ (∃ r, findFact t3 (some "10.1/b") (some "u2") = some r
          ∧ r.title = some "T2" ∧ r.updated_at = 2) :=
  c8_last_writer_wins ⟨[], []⟩
    { doi := some "10.1/a", url := some "u1", title := some "T1" }
    { doi := some "10.1/b", url := some "u2", title := some "T2" }
    { doi := some "10.1/a", url := some "u1", title := some "T3" }
    1 2 3 (by decide) (by decide)

/-! ## Batch import engine (modelled from the spec), for claim C1 -/


/-- Modelled from the spec (§4.5 step 2): a row must carry non-empty `doi`
and `url`; a row failing validation is skipped (and counted in the skipped
statistics, which no claim inspects) and never aborts the batch. -/
def rowValid (d : RecordData) : Bool :=
  (match d.doi with | some s => !(s == "") | none => false)
  && (match d.url with | some s => !(s == "") | none => false)

/-- Modelled from the spec: one row-processing step of the batch import
engine.  `doi_url_importer.py` is not among the source files (only its test
suite `src/test/test_doi_url_importer_resume.py` is); spec §4.5 steps 2–4
say each row is validated — invalid rows are skipped, the batch continues —
then cleaned, resolved and written through the `(doi, url)`-keyed upsert,
which `insert_doi_url_record` embeds; the success flag only feeds
statistics. -/
def importRow (now : Nat) (s : HelperState × FactTable) (d : RecordData) :
    HelperState × FactTable :=
  if rowValid d then (insert_doi_url_record s.1 s.2 d now).2 else s

/-- Modelled from the spec: process a list of rows in order. -/
def importRows (now : Nat) (s : HelperState × FactTable)
    (rows : List RecordData) : HelperState × FactTable :=
  rows.foldl (importRow now) s

/-- Modelled from the spec: `read_csv_in_batches` slices a row stream into
consecutive batches of `batchSize` rows (the final batch may be short). -/
def toBatches {α : Type} (batchSize : Nat) : List α → List (List α)
  | [] => []
  | x :: xs =>
    (x :: xs.take (batchSize - 1)) :: toBatches batchSize (xs.drop (batchSize - 1))
termination_by l => l.length
decreasing_by
  simp only [List.length_drop, List.length_cons]
  omega

/-- Modelled from the spec: the state of one import run — the helper state,
the fact table, and the ledger's `processed_rows` and batch counter for the
run's `import_progress` row. -/
structure RunState where
  st : HelperState
  tbl : FactTable
  processed : Nat
  lastBatch : Nat
deriving DecidableEq, Repr

/-- Modelled from the spec (§4.5 steps 1–5): process one batch — upsert its
rows, then (write-then-advance) advance the ledger by the batch's length and
bump the batch id. -/
def processBatch (now : Nat) (rs : RunState) (batch : List RecordData) : RunState :=
  { st := (importRows now (rs.st, rs.tbl) batch).1,
    tbl := (importRows now (rs.st, rs.tbl) batch).2,
    processed := rs.processed + batch.length,
    lastBatch := rs.lastBatch + 1 }

/-- Modelled from the spec: drive the import from the run state's ledger
cursor — on resume, `startRow` is the advanced `processed_rows`, so the
first `processed` rows are skipped and the rest is processed in batches. -/
def runImport (now batchSize : Nat) (rows : List RecordData) (rs : RunState) :
    RunState :=
  (toBatches batchSize (rows.drop rs.processed)).foldl (processBatch now) rs

/-- Modelled from the spec: resuming after a crash starts a new process.
The resolver's lookup cache is in-process state, scoped to the engine's run
and cleared or discarded at process exit (§4.5 cache discipline), so the
resumed engine begins with an empty cache; the persisted stores — the lookup
tables, the fact table — and the ledger's advanced counters carry over. -/
def freshProcess (rs : RunState) : RunState :=
  { st := { cache := [], db := rs.st.db }, tbl := rs.tbl,
    processed := rs.processed, lastBatch := rs.lastBatch }

/-- The `(doi, url)` natural key of a fact row. -/
def factKey (r : StoredFact) : Option String × Option String :=
  (r.doi, r.url)

/-- The fact table's `UNIQUE (doi, url)` constraint: all row keys distinct. -/
def keysUnique (tbl : FactTable) : Prop :=
  (tbl.map factKey).Nodup

/-! ### Lemmas about batching and the run fold -/

theorem toBatches_flatten {α : Type} (B : Nat) :
    ∀ l : List α, (toBatches B l).flatten = l
  | [] => by simp [toBatches]
  | x :: xs => by
    rw [toBatches]
    simp only [List.flatten_cons]
    rw [toBatches_flatten B (xs.drop (B - 1))]
    simp [List.take_append_drop]
termination_by l => l.length
decreasing_by
  simp only [List.length_drop, List.length_cons]
  omega

theorem foldl_processBatch_spec (now : Nat) (bs : List (List RecordData)) :
    ∀ rs : RunState,
      bs.foldl (processBatch now) rs =
        { st := (importRows now (rs.st, rs.tbl) bs.flatten).1,
          tbl := (importRows now (rs.st, rs.tbl) bs.flatten).2,
          processed := rs.processed + bs.flatten.length,
          lastBatch := rs.lastBatch + bs.length } := by
  induction bs with
  | nil =>
    intro rs
    simp [importRows]
  | cons b rest ih =>
    intro rs
    simp only [List.foldl_cons, List.flatten_cons]
    rw [ih]
    simp only [processBatch]
    simp only [importRows, List.foldl_append, List.length_append, List.length_cons]
    refine RunState.mk.injEq .. |>.mpr ⟨rfl, rfl, by omega, by omega⟩

theorem importRows_append (now : Nat) (s : HelperState × FactTable)
    (l1 l2 : List RecordData) :
    importRows now s (l1 ++ l2) = importRows now (importRows now s l1) l2 := by
  simp [importRows, List.foldl_append]

/-! ### Cache keys and cache–table coherence

A resumed run starts a fresh process whose lookup cache is empty while the
lookup tables persist, so resume equivalence rests on the invariant that the
cache only ever memoizes what the tables answer.  The cache keys are the
concatenations `table ++ ":" ++ value`; the whitelisted table names start
with pairwise distinct characters, so keys determine the pair. -/

theorem cacheKey_cancel {t v1 v2 : String} (h : t ++ ":" ++ v1 = t ++ ":" ++ v2) :
    v1 = v2 := by
  have e := congrArg String.data h
  simp only [String.data_append] at e
  have e2 := List.append_cancel_left e
  cases v1; cases v2
  exact congrArg String.mk e2

theorem key_head_license (v : String) :
    ("license" ++ ":" ++ v).data.head? = some 'l' := rfl

theorem key_head_oa_status (v : String) :
    ("oa_status" ++ ":" ++ v).data.head? = some 'o' := rfl

theorem key_head_host_type (v : String) :
    ("host_type" ++ ":" ++ v).data.head? = some 'h' := rfl

theorem key_head_work_type (v : String) :
    ("work_type" ++ ":" ++ v).data.head? = some 'w' := rfl

/-- Equal cache keys of whitelisted tables carry equal table names and equal
values. -/
theorem valid_key_inj {t1 t2 v1 v2 : String} (h1 : t1 ∈ VALID_LOOKUP_TABLES)
    (h2 : t2 ∈ VALID_LOOKUP_TABLES)
    (h : t1 ++ ":" ++ v1 = t2 ++ ":" ++ v2) : t1 = t2 ∧ v1 = v2 := by
  have hhead := congrArg (fun s : String => s.data.head?) h
  simp only [VALID_LOOKUP_TABLES, List.mem_cons, List.not_mem_nil, or_false] at h1 h2
  rcases h1 with rfl | rfl | rfl | rfl <;> rcases h2 with rfl | rfl | rfl | rfl <;>
    simp only [key_head_license, key_head_oa_status, key_head_host_type,
      key_head_work_type] at hhead <;>
    first
      | exact ⟨rfl, cacheKey_cancel h⟩
      | exact absurd hhead (by decide)

theorem cacheLookup_append (l1 l2 : LookupCache) (k : String) :
    cacheLookup (l1 ++ l2) k = (cacheLookup l1 k).or (cacheLookup l2 k) := by
  induction l1 with
  | nil => rfl
  | cons e rest ih =>
    obtain ⟨q, j⟩ := e
    by_cases hq : q = k
    · simp [cacheLookup, hq]
    · simp [cacheLookup, hq, ih]

theorem cacheLookup_map_other (cache : LookupCache) {k k2 : String} (i : Nat)
    (hne : k2 ≠ k) :
    cacheLookup (cache.map (fun e => if e.1 = k then (k, i) else e)) k2
      = cacheLookup cache k2 := by
  induction cache with
  | nil => rfl
  | cons e rest ih =>
    obtain ⟨q, j⟩ := e
    simp only [List.map_cons]
    by_cases hq : q = k
    · subst hq
      rw [if_pos rfl]
      simp only [cacheLookup]
      rw [if_neg (Ne.symm hne), if_neg (Ne.symm hne)]
      exact ih
    · rw [if_neg hq]
      simp only [cacheLookup]
      by_cases hq2 : q = k2
      · rw [if_pos hq2, if_pos hq2]
      · rw [if_neg hq2, if_neg hq2]
        exact ih

theorem cacheLookup_cacheInsert_other (cache : LookupCache) {k k2 : String}
    (i : Nat) (hne : k2 ≠ k) :
    cacheLookup (cacheInsert cache k i) k2 = cacheLookup cache k2 := by
  unfold cacheInsert
  by_cases h : cache.any (fun e => e.1 = k) = true
  · rw [if_pos h]
    exact cacheLookup_map_other cache i hne
  · rw [if_neg h, cacheLookup_append]
    have h1 : cacheLookup [(k, i)] k2 = none := by
      simp [cacheLookup, Ne.symm hne]
    rw [h1]
    cases cacheLookup cache k2 <;> rfl

theorem getTable_map_other (db : LookupDB) {t t2 : String} (tbl : LookupTable)
    (hne : t2 ≠ t) :
    getTable (db.map (fun e => if e.1 = t then (t, tbl) else e)) t2
      = getTable db t2 := by
  induction db with
  | nil => rfl
  | cons e rest ih =>
    obtain ⟨q, u⟩ := e
    simp only [List.map_cons]
    by_cases hq : q = t
    · subst hq
      rw [if_pos rfl]
      simp only [getTable]
      rw [if_neg (Ne.symm hne), if_neg (Ne.symm hne)]
      exact ih
    · rw [if_neg hq]
      simp only [getTable]
      by_cases hq2 : q = t2
      · rw [if_pos hq2, if_pos hq2]
      · rw [if_neg hq2, if_neg hq2]
        exact ih

theorem getTable_setTable_other (db : LookupDB) {t t2 : String}
    (tbl : LookupTable) (hne : t2 ≠ t) :
    getTable (setTable db t tbl) t2 = getTable db t2 := by
  unfold setTable
  by_cases h : db.any (fun e => e.1 = t) = true
  · rw [if_pos h]
    exact getTable_map_other db tbl hne
  · rw [if_neg h]
    induction db with
    | nil =>
      simp only [List.nil_append, getTable]
      rw [if_neg (Ne.symm hne)]
    | cons e rest ih =>
      obtain ⟨q, u⟩ := e
      simp only [List.any_cons, Bool.or_eq_true] at h
      push_neg at h
      simp only [List.cons_append, getTable]
      by_cases hq2 : q = t2
      · rw [if_pos hq2, if_pos hq2]
      · rw [if_neg hq2, if_neg hq2]
        exact ih (by simpa using h.2)

/-- The cache only memoizes what the persisted tables answer: every cache
entry `table:value ↦ id` agrees with the first table row carrying that
value.  A fresh process's empty cache is trivially coherent, and every
branch of `get_or_create_lookup_id` preserves coherence. -/
def cacheCoherent (st : HelperState) : Prop :=
  ∀ t ∈ VALID_LOOKUP_TABLES, ∀ v i,
    cacheLookup st.cache (t ++ ":" ++ v) = some i →
    (getTable st.db t).rows.find? (fun row => row.2 == v) = some (i, v)

theorem cacheCoherent_empty (db : LookupDB) :
    cacheCoherent ⟨[], db⟩ := by
  intro t _ v i h
  simp [cacheLookup] at h

theorem cacheCoherent_select {st : HelperState} {t w : String} {i : Nat}
    (hst : cacheCoherent st) (hv : t ∈ VALID_LOOKUP_TABLES)
    (hf : (getTable st.db t).rows.find? (fun row => row.2 == w) = some (i, w)) :
    cacheCoherent ⟨cacheInsert st.cache (t ++ ":" ++ w) i, st.db⟩ := by
  intro t2 hv2 v2 i2 hlook
  by_cases hk : t2 ++ ":" ++ v2 = t ++ ":" ++ w
  · obtain ⟨hteq, hveq⟩ := valid_key_inj hv2 hv hk
    subst hteq
    subst hveq
    rw [cacheLookup_cacheInsert_self] at hlook
    have : i = i2 := by injection hlook
    subst this
    exact hf
  · rw [cacheLookup_cacheInsert_other _ _ hk] at hlook
    exact hst t2 hv2 v2 i2 hlook

theorem cacheCoherent_insert {st : HelperState} {t w : String}
    (hst : cacheCoherent st) (hv : t ∈ VALID_LOOKUP_TABLES)
    (hf : (getTable st.db t).rows.find? (fun row => row.2 == w) = none) :
    cacheCoherent
      ⟨cacheInsert st.cache (t ++ ":" ++ w) (getTable st.db t).nextId,
       setTable st.db t
         { rows := (getTable st.db t).rows ++ [((getTable st.db t).nextId, w)],
           nextId := (getTable st.db t).nextId + 1 }⟩ := by
  intro t2 hv2 v2 i2 hlook
  by_cases hk : t2 ++ ":" ++ v2 = t ++ ":" ++ w
  · obtain ⟨hteq, hveq⟩ := valid_key_inj hv2 hv hk
    subst hteq
    subst hveq
    rw [cacheLookup_cacheInsert_self] at hlook
    have : (getTable st.db t2).nextId = i2 := by injection hlook
    subst this
    rw [getTable_setTable_self, List.find?_append, hf]
    simp [List.find?]
  · rw [cacheLookup_cacheInsert_other _ _ hk] at hlook
    have hold := hst t2 hv2 v2 i2 hlook
    by_cases ht : t2 = t
    · subst ht
      rw [getTable_setTable_self, List.find?_append, hold]
      rfl
    · rw [getTable_setTable_other _ _ ht]
      exact hold

/-- The storage-level outcome of resolving a stripped non-empty value: the
id the `SELECT` finds, or the freshly inserted id together with the updated
table — a function of the persisted tables only, independent of the
in-process cache. -/
def resolveOutcome (db : LookupDB) (t w : String) : Nat × LookupDB :=
  match (getTable db t).rows.find? (fun row => row.2 == w) with
  | some row => (row.1, db)
  | none =>
    ((getTable db t).nextId,
      setTable db t
        { rows := (getTable db t).rows ++ [((getTable db t).nextId, w)],
          nextId := (getTable db t).nextId + 1 })

/-- From a coherent state, `get_or_create_lookup_id` returns the id the
persisted tables dictate — whether it is answered from the cache or not —
mutates the tables exactly as `resolveOutcome` says, and preserves
coherence. -/
theorem get_or_create_coherent (st : HelperState) (t raw : String)
    (hv : t ∈ VALID_LOOKUP_TABLES) (hne : pyStrip raw ≠ "")
    (hst : cacheCoherent st) :
    ∃ st', get_or_create_lookup_id st t (some raw) false
        = .ok (some (resolveOutcome st.db t (pyStrip raw)).1, st')
      ∧ st'.db = (resolveOutcome st.db t (pyStrip raw)).2
      ∧ cacheCoherent st' := by
  cases hcache : cacheLookup st.cache (t ++ ":" ++ pyStrip raw) with
  | some i =>
    have hf := hst t hv (pyStrip raw) i hcache
    refine ⟨st, ?_, ?_, hst⟩
    · simp only [get_or_create_lookup_id]
      rw [if_neg hne, if_pos hv]
      simp [hcache, resolveOutcome, hf]
    · simp [resolveOutcome, hf]
  | none =>
    cases hfind : (getTable st.db t).rows.find? (fun row => row.2 == pyStrip raw) with
    | some row =>
      obtain ⟨i, v'⟩ := row
      have hv' : v' = pyStrip raw := by
        have := List.find?_some hfind
        simpa using this
      subst hv'
      refine ⟨{ st with
        cache := cacheInsert st.cache (t ++ ":" ++ pyStrip raw) i }, ?_, ?_, ?_⟩
      · simp only [get_or_create_lookup_id]
        rw [if_neg hne, if_pos hv]
        simp [hcache, hfind, resolveOutcome]
      · simp [resolveOutcome, hfind]
      · exact cacheCoherent_select hst hv hfind
    | none =>
      refine ⟨{ cache := cacheInsert st.cache (t ++ ":" ++ pyStrip raw)
                  (getTable st.db t).nextId,
                db := setTable st.db t
                  { rows := (getTable st.db t).rows
                      ++ [((getTable st.db t).nextId, pyStrip raw)],
                    nextId := (getTable st.db t).nextId + 1 } }, ?_, ?_, ?_⟩
      · simp only [get_or_create_lookup_id]
        rw [if_neg hne, if_pos hv]
        simp [hcache, hfind, resolveOutcome]
      · simp [resolveOutcome, hfind]
      · exact cacheCoherent_insert hst hv hfind

/-- Two coherent helper states over the same persisted tables — e.g. the
warm in-process cache of an uninterrupted run and the empty cache of a
freshly restarted process — resolve every value to the same id and leave the
tables in the same state. -/
theorem get_or_create_bisim (a b : HelperState) (t : String) (v : Option String)
    (hv : t ∈ VALID_LOOKUP_TABLES) (ha : cacheCoherent a) (hb : cacheCoherent b)
    (hdb : a.db = b.db) :
    ∃ i a' b', get_or_create_lookup_id a t v false = .ok (i, a')
      ∧ get_or_create_lookup_id b t v false = .ok (i, b')
      ∧ a'.db = b'.db ∧ cacheCoherent a' ∧ cacheCoherent b' := by
  cases v with
  | none => exact ⟨none, a, b, rfl, rfl, hdb, ha, hb⟩
  | some raw =>
    by_cases hne : pyStrip raw = ""
    · refine ⟨none, a, b, ?_, ?_, hdb, ha, hb⟩
      · simp only [get_or_create_lookup_id]
        rw [if_pos hne]
      · simp only [get_or_create_lookup_id]
        rw [if_pos hne]
    · obtain ⟨a', hea, hda, hca⟩ := get_or_create_coherent a t raw hv hne ha
      obtain ⟨b', heb, hdbb, hcb⟩ := get_or_create_coherent b t raw hv hne hb
      refine ⟨some (resolveOutcome a.db t (pyStrip raw)).1, a', b', hea, ?_, ?_, hca, hcb⟩
      · rw [heb, hdb]
      · rw [hda, hdbb, hdb]

/-- `insert_doi_url_record` behaves identically from two coherent states
over the same tables: same success flag, same fact-table result, same
tables afterwards, coherence preserved. -/
theorem insert_doi_url_record_bisim (a b : HelperState) (tbl : FactTable)
    (d : RecordData) (now : Nat) (ha : cacheCoherent a) (hb : cacheCoherent b)
    (hdb : a.db = b.db) :
    ∃ a' b' tbl', insert_doi_url_record a tbl d now = (true, a', tbl')
      ∧ insert_doi_url_record b tbl d now = (true, b', tbl')
      ∧ a'.db = b'.db ∧ cacheCoherent a' ∧ cacheCoherent b' := by
  obtain ⟨i1, a1, b1, ha1e, hb1e, hdb1, ha1, hb1⟩ :=
    get_or_create_bisim a b "license" d.license (by decide) ha hb hdb
  obtain ⟨i2, a2, b2, ha2e, hb2e, hdb2, ha2, hb2⟩ :=
    get_or_create_bisim a1 b1 "oa_status" d.oa_status (by decide) ha1 hb1 hdb1
  obtain ⟨i3, a3, b3, ha3e, hb3e, hdb3, ha3, hb3⟩ :=
    get_or_create_bisim a2 b2 "host_type" d.host_type (by decide) ha2 hb2 hdb2
  obtain ⟨i4, a4, b4, ha4e, hb4e, hdb4, ha4, hb4⟩ :=
    get_or_create_bisim a3 b3 "work_type" d.work_type (by decide) ha3 hb3 hdb3
  refine ⟨a4, b4, upsertFact tbl
    { doi := d.doi, url := d.url, pdf_url := d.pdf_url,
      openalex_id := d.openalex_id, title := d.title,
      publication_year := d.publication_year,
      location_type := normalize_location_type (d.location_type.getD "primary"),
      version := d.version, license_id := i1, host_type_id := i3,
      oa_status_id := i2, is_oa := d.is_oa.getD false, work_type_id := i4,
      is_retracted := d.is_retracted.getD false,
      url_quality_score := d.url_quality_score.getD 50,
      updated_at := now }, ?_, ?_, hdb4, ha4, hb4⟩
  · unfold insert_doi_url_record
    simp only [ha1e, ha2e, ha3e, ha4e]
  · unfold insert_doi_url_record
    simp only [hb1e, hb2e, hb3e, hb4e]

theorem importRow_bisim (now : Nat) (a b : HelperState) (tbl : FactTable)
    (d : RecordData) (ha : cacheCoherent a) (hb : cacheCoherent b)
    (hdb : a.db = b.db) :
    ∃ a' b' tbl', importRow now (a, tbl) d = (a', tbl')
      ∧ importRow now (b, tbl) d = (b', tbl')
      ∧ a'.db = b'.db ∧ cacheCoherent a' ∧ cacheCoherent b' := by
  by_cases hval : rowValid d = true
  · obtain ⟨a', b', tbl', h1, h2, h3, h4, h5⟩ :=
      insert_doi_url_record_bisim a b tbl d now ha hb hdb
    refine ⟨a', b', tbl', ?_, ?_, h3, h4, h5⟩
    · simp [importRow, hval, h1]
    · simp [importRow, hval, h2]
  · refine ⟨a, b, tbl, ?_, ?_, hdb, ha, hb⟩
    · simp [importRow, hval]
    · simp [importRow, hval]

/-- A whole stream of rows behaves identically from two coherent states
over the same tables and the same fact table: the final fact tables and
tables agree, and both final states are coherent. -/
theorem importRows_bisim (now : Nat) (rows : List RecordData) :
    ∀ (a b : HelperState) (tbl : FactTable),
      cacheCoherent a → cacheCoherent b → a.db = b.db →
      (importRows now (a, tbl) rows).2 = (importRows now (b, tbl) rows).2
      ∧ (importRows now (a, tbl) rows).1.db = (importRows now (b, tbl) rows).1.db
      ∧ cacheCoherent (importRows now (a, tbl) rows).1
      ∧ cacheCoherent (importRows now (b, tbl) rows).1 := by
  induction rows with
  | nil =>
    intro a b tbl ha hb hdb
    exact ⟨rfl, hdb, ha, hb⟩
  | cons d rest ih =>
    intro a b tbl ha hb hdb
    obtain ⟨a', b', tbl', hia, hib, hdb', ha', hb'⟩ :=
      importRow_bisim now a b tbl d ha hb hdb
    have ea : importRows now (a, tbl) (d :: rest) = importRows now (a', tbl') rest := by
      simp [importRows, List.foldl_cons, hia]
    have eb : importRows now (b, tbl) (d :: rest) = importRows now (b', tbl') rest := by
      simp [importRows, List.foldl_cons, hib]
    rw [ea, eb]
    exact ih a' b' tbl' ha' hb' hdb'

theorem keysUnique_upsertFact {tbl : FactTable} (f : StoredFact)
    (h : keysUnique tbl) : keysUnique (upsertFact tbl f) := by
  unfold upsertFact
  by_cases hc : tbl.any (fun x => x.doi == f.doi && x.url == f.url) = true
  · rw [if_pos hc]
    unfold keysUnique at h ⊢
    have hmap :
        (tbl.map (fun x => if x.doi == f.doi && x.url == f.url then f else x)).map factKey
          = tbl.map factKey := by
      rw [List.map_map]
      apply List.map_congr_left
      intro x hx
      by_cases hk : (x.doi == f.doi && x.url == f.url) = true
      · have hdu : x.doi = f.doi ∧ x.url = f.url := by
          simpa using hk
        simp [Function.comp, hk, factKey, hdu.1, hdu.2]
      · simp [Function.comp, hk]
    rw [hmap]
    exact h
  · rw [if_neg hc]
    unfold keysUnique at h ⊢
    rw [List.map_append, List.nodup_append]
    refine ⟨h, by simp, ?_⟩
    intro a ha hb
    simp only [List.map_cons, List.map_nil, List.mem_singleton] at hb
    subst hb
    obtain ⟨x, hx, hkx⟩ := List.mem_map.mp ha
    have hxf : x.doi = f.doi ∧ x.url = f.url := by
      have := hkx
      simp only [factKey, Prod.mk.injEq] at this
      exact this
    exact hc (List.any_eq_true.mpr ⟨x, hx, by simp [hxf.1, hxf.2]⟩)

theorem keysUnique_importRows (now : Nat) (rows : List RecordData) :
    ∀ s : HelperState × FactTable, keysUnique s.2 →
      keysUnique (importRows now s rows).2 := by
  induction rows with
  | nil =>
    intro s h
    simpa [importRows] using h
  | cons d rest ih =>
    intro s h
    have hstep : keysUnique (importRow now s d).2 := by
      by_cases hval : rowValid d = true
      · obtain ⟨st4, row, hins, _, _, _, _⟩ := insert_doi_url_record_shape s.1 s.2 d now
        simpa [importRow, hval, hins] using keysUnique_upsertFact row h
      · simpa [importRow, hval] using h
    have := ih (importRow now s d) hstep
    simpa [importRows, List.foldl_cons] using this

/-! ### Claim C1: resume equivalence of the batch import -/

/-- C1: interrupting the import after any committed-and-advanced batch
boundary `k` — killing the process, which discards the resolver's in-process
lookup cache — and resuming in a fresh process (`freshProcess`: empty cache
over the persisted lookup tables, fact table and ledger counters) from the
ledger's advanced row count produces the identical final fact-table
snapshot, processed-row count and lookup tables as running the import once
to completion, both runs starting from an empty cache; and when the initial
fact table satisfies the `(doi, url)` uniqueness invariant the final table
does too, so rows replayed after a resume are re-applied through the upsert
and never duplicated. -/
theorem c1_resume_equivalence (now batchSize : Nat) (rows : List RecordData)
    (db0 : LookupDB) (tbl0 : FactTable) (k : Nat) :
    (runImport now batchSize rows
        (freshProcess (((toBatches batchSize rows).take k).foldl (processBatch now)
          ⟨⟨[], db0⟩, tbl0, 0, 0⟩))).tbl
      = (runImport now batchSize rows (⟨⟨[], db0⟩, tbl0, 0, 0⟩ : RunState)).tbl
    ∧ (runImport now batchSize rows
        (freshProcess (((toBatches batchSize rows).take k).foldl (processBatch now)
          ⟨⟨[], db0⟩, tbl0, 0, 0⟩))).processed
      = (runImport now batchSize rows (⟨⟨[], db0⟩, tbl0, 0, 0⟩ : RunState)).processed
    ∧ (runImport now batchSize rows
        (freshProcess (((toBatches batchSize rows).take k).foldl (processBatch now)
          ⟨⟨[], db0⟩, tbl0, 0, 0⟩))).st.db
      = (runImport now batchSize rows (⟨⟨[], db0⟩, tbl0, 0, 0⟩ : RunState)).st.db
    ∧ (keysUnique tbl0 →
        keysUnique (runImport now batchSize rows
          (⟨⟨[], db0⟩, tbl0, 0, 0⟩ : RunState)).tbl) := by
  have hsplit : ((toBatches batchSize rows).take k).flatten
      ++ ((toBatches batchSize rows).drop k).flatten = rows := by
    rw [← List.flatten_append, List.take_append_drop, toBatches_flatten]
  have hdrop := List.drop_left ((toBatches batchSize rows).take k).flatten
      ((toBatches batchSize rows).drop k).flatten
  rw [hsplit] at hdrop
  -- canonical form of the full run
  have hfull : runImport now batchSize rows (⟨⟨[], db0⟩, tbl0, 0, 0⟩ : RunState)
      = { st := (importRows now (⟨[], db0⟩, tbl0) rows).1,
          tbl := (importRows now (⟨[], db0⟩, tbl0) rows).2,
          processed := rows.length,
          lastBatch := (toBatches batchSize rows).length } := by
    show (toBatches batchSize rows).foldl (processBatch now)
        ⟨⟨[], db0⟩, tbl0, 0, 0⟩ = _
    rw [foldl_processBatch_spec]
    simp [toBatches_flatten]
  -- canonical form of the interrupted-then-freshly-resumed run
  have hrsk := foldl_processBatch_spec now ((toBatches batchSize rows).take k)
      ⟨⟨[], db0⟩, tbl0, 0, 0⟩
  have hres : runImport now batchSize rows
      (freshProcess (((toBatches batchSize rows).take k).foldl (processBatch now)
        ⟨⟨[], db0⟩, tbl0, 0, 0⟩))
      = { st := (importRows now
            (⟨[], (importRows now (⟨[], db0⟩, tbl0)
                ((toBatches batchSize rows).take k).flatten).1.db⟩,
              (importRows now (⟨[], db0⟩, tbl0)
                ((toBatches batchSize rows).take k).flatten).2)
            ((toBatches batchSize rows).drop k).flatten).1,
          tbl := (importRows now
            (⟨[], (importRows now (⟨[], db0⟩, tbl0)
                ((toBatches batchSize rows).take k).flatten).1.db⟩,
              (importRows now (⟨[], db0⟩, tbl0)
                ((toBatches batchSize rows).take k).flatten).2)
            ((toBatches batchSize rows).drop k).flatten).2,
          processed := ((toBatches batchSize rows).take k).flatten.length
            + ((toBatches batchSize rows).drop k).flatten.length,
          lastBatch := ((toBatches batchSize rows).take k).length
            + (toBatches batchSize
                (((toBatches batchSize rows).drop k).flatten)).length } := by
    rw [hrsk]
    show (toBatches batchSize (rows.drop (0 +
        ((toBatches batchSize rows).take k).flatten.length))).foldl (processBatch now) _ = _
    rw [Nat.zero_add, hdrop, foldl_processBatch_spec]
    simp [freshProcess, toBatches_flatten]
  -- the warm state after the prefix is coherent
  have hwarm := importRows_bisim now ((toBatches batchSize rows).take k).flatten
      ⟨[], db0⟩ ⟨[], db0⟩ tbl0 (cacheCoherent_empty db0) (cacheCoherent_empty db0) rfl
  -- the fresh-cache and warm-cache suffix runs agree
  have hbisim := importRows_bisim now ((toBatches batchSize rows).drop k).flatten
      ⟨[], (importRows now (⟨[], db0⟩, tbl0)
        ((toBatches batchSize rows).take k).flatten).1.db⟩
      (importRows now (⟨[], db0⟩, tbl0)
        ((toBatches batchSize rows).take k).flatten).1
      (importRows now (⟨[], db0⟩, tbl0)
        ((toBatches batchSize rows).take k).flatten).2
      (cacheCoherent_empty _) hwarm.2.2.1 rfl
  -- the full run equals prefix-then-suffix over the warm state
  have hfull_seq : importRows now (⟨[], db0⟩, tbl0) rows
      = importRows now
          ((importRows now (⟨[], db0⟩, tbl0)
              ((toBatches batchSize rows).take k).flatten).1,
           (importRows now (⟨[], db0⟩, tbl0)
              ((toBatches batchSize rows).take k).flatten).2)
          ((toBatches batchSize rows).drop k).flatten := by
    conv_lhs => rw [← hsplit]
    rw [importRows_append]
  refine ⟨?_, ?_, ?_, ?_⟩
  · rw [hres, hfull]
    simp only
    rw [hfull_seq]
    exact hbisim.1
  · rw [hres, hfull]
    simp only
    rw [← List.length_append, hsplit]
  · rw [hres, hfull]
    simp only
    rw [hfull_seq]
    exact hbisim.2.1
  · intro hk0
    rw [hfull]
    exact keysUnique_importRows now rows (⟨[], db0⟩, tbl0) hk0

/-- Concrete three-row input used by the C1 witness. -/
def demoRows : List RecordData :=
  [{ doi := some "10.1/a", url := some "u1" },
   { doi := some "10.1/b", url := some "u2" },
   { doi := some "10.1/c", url := some "u3" }]

/-- C1 witness: with three concrete rows, batch size 2, interruption after
batch 1 followed by a fresh-process (empty-cache) resume, the resumed run's
fact table, processed count and lookup tables equal the uninterrupted run's,
and the final table's keys are unique. -/
theorem c1_resume_equivalence_witness :
    (runImport 7 2 demoRows
        (freshProcess (((toBatches 2 demoRows).take 1).foldl (processBatch 7)
          ⟨⟨[], []⟩, [], 0, 0⟩))).tbl
      = (runImport 7 2 demoRows (⟨⟨[], []⟩, [], 0, 0⟩ : RunState)).tbl
    ∧ (runImport 7 2 demoRows
        (freshProcess (((toBatches 2 demoRows).take 1).foldl (processBatch 7)
          ⟨⟨[], []⟩, [], 0, 0⟩))).processed
      = (runImport 7 2 demoRows (⟨⟨[], []⟩, [], 0, 0⟩ : RunState)).processed
    ∧ keysUnique (runImport 7 2 demoRows (⟨⟨[], []⟩, [], 0, 0⟩ : RunState)).tbl :=
  ⟨(c1_resume_equivalence 7 2 demoRows [] [] 1).1,
   (c1_resume_equivalence 7 2 demoRows [] [] 1).2.1,
   (c1_resume_equivalence 7 2 demoRows [] [] 1).2.2.2 (by simp [keysUnique])⟩
